import Mathlib

/-!
Verification of the string/metadata utility layer of the infinitunes client
(file src/lib/utils.ts).

JavaScript strings are modelled as lists of Unicode scalar values
(Lean `Char`).  The JavaScript built-ins that the utilities rely on
(String.prototype.toLowerCase restricted to ASCII, String.prototype.replace /
replaceAll / split with string patterns, encodeURIComponent /
decodeURIComponent, btoa / atob) are embedded as executable Lean functions
following their ECMAScript / WHATWG semantics.  Functions that scan a string
while dropping a pattern-length chunk at each step are written with an
explicit fuel argument (initialised to the string length, and never exhausted
because every step consumes at least one character) so that they are
structurally recursive and kernel-computable.
-/

/-- ASCII fragment of the Unicode simple lower-case mapping used by
JavaScript String.prototype.toLowerCase (all inputs in the development are
ASCII).  This is exactly Lean core Char.toLower, named for the JS builtin. -/
def jsToLower (c : Char) : Char := c.toLower

/-- The JavaScript regular-expression class backslash-w: [A-Za-z0-9_]. -/
def isWordChar (c : Char) : Bool :=
  let n := c.toNat
  (48 ≤ n && n ≤ 57) || (65 ≤ n && n ≤ 90) || (97 ≤ n && n ≤ 122) || n == 95

/-- The JavaScript regular-expression class backslash-s (WhiteSpace and
LineTerminator code points). -/
def isJsWhitespace (c : Char) : Bool :=
  let n := c.toNat
  n == 9 || n == 10 || n == 11 || n == 12 || n == 13 || n == 32 ||
  n == 0xA0 || n == 0x1680 || (0x2000 ≤ n && n ≤ 0x200A) ||
  n == 0x2028 || n == 0x2029 || n == 0x202F || n == 0x205F ||
  n == 0x3000 || n == 0xFEFF

/-- Fuelled worker for String.prototype.replaceAll with a string pattern:
replaces the leftmost occurrence, then continues after the replacement
(non-overlapping, single pass, the replacement text is never rescanned). -/
def replaceAllGo (pat rep : List Char) : Nat → List Char → List Char
  | _, [] => []
  | 0, l => l
  | fuel + 1, c :: rest =>
    if pat ≠ [] ∧ pat.isPrefixOf (c :: rest) then
      rep ++ replaceAllGo pat rep fuel (rest.drop (pat.length - 1))
    else
      c :: replaceAllGo pat rep fuel rest

/-- String.prototype.replaceAll with a (non-empty) string pattern.  The fuel
starts at the string length and each step consumes at least one character,
so it is never exhausted. -/
def replaceAll (pat rep s : List Char) : List Char :=
  replaceAllGo pat rep s.length s

/-- String.prototype.replace with a string pattern: replaces only the
leftmost occurrence. -/
def jsReplaceFirst (pat rep : List Char) : List Char → List Char
  | [] => []
  | c :: rest =>
    if pat ≠ [] ∧ pat.isPrefixOf (c :: rest) then
      rep ++ (c :: rest).drop pat.length
    else
      c :: jsReplaceFirst pat rep rest

/-- Fuelled worker for String.prototype.split with a non-empty string
separator: splits at the leftmost non-overlapping occurrences. -/
def jsSplitGo (sep : List Char) : Nat → List Char → List (List Char)
  | _, [] => [[]]
  | 0, l => [l]
  | fuel + 1, c :: rest =>
    if sep ≠ [] ∧ sep.isPrefixOf (c :: rest) then
      [] :: jsSplitGo sep fuel (rest.drop (sep.length - 1))
    else
      match jsSplitGo sep fuel rest with
      | [] => [[c]]
      | g :: gs => (c :: g) :: gs

/-- String.prototype.split with a non-empty string separator
(so the empty string splits to a single empty field, like in JS). -/
def jsSplit (sep s : List Char) : List (List Char) :=
  jsSplitGo sep s.length s

/-- utils.ts clearUrl: lower-case, delete every character matching
[^ backslash-w backslash-s ], replaceAll(" ", "-"), replaceAll("--", "-"). -/
def clearUrl (url : List Char) : List Char :=
  replaceAll "--".toList "-".toList
    (replaceAll " ".toList "-".toList
      ((url.map jsToLower).filter fun c => isWordChar c || isJsWhitespace c))

/-- utils.ts formatTime on a non-negative integer number of seconds:
minutes = floor(time / 60), seconds = time mod 60, seconds below 10 are
zero-padded to two digits. -/
def formatTime (time : Nat) : String :=
  let minutes := time / 60
  let seconds := time % 60
  toString minutes ++ ":" ++
    (if seconds < 10 then "0" ++ toString seconds else toString seconds)

/-- Upper-case hexadecimal digit character (ECMAScript Encode emits
upper-case digits). -/
def hexDigitChar (n : Nat) : Char :=
  if n < 10 then Char.ofNat (48 + n) else Char.ofNat (55 + n)

/-- Value of a hexadecimal digit character; ECMAScript Decode accepts both
cases. -/
def hexVal (c : Char) : Option Nat :=
  let n := c.toNat
  if 48 ≤ n ∧ n ≤ 57 then some (n - 48)
  else if 65 ≤ n ∧ n ≤ 70 then some (n - 55)
  else if 97 ≤ n ∧ n ≤ 102 then some (n - 87)
  else none

/-- Value of a two-hex-digit sequence. -/
def hex2 (h1 h2 : Char) : Option Nat := do
  let a ← hexVal h1
  let b ← hexVal h2
  pure (16 * a + b)

/-- Percent-escape of one byte, as emitted by ECMAScript Encode. -/
def pctEncodeByte (b : Nat) : List Char :=
  ['%', hexDigitChar (b / 16), hexDigitChar (b % 16)]

/-- UTF-8 encoding of a Unicode scalar value. -/
def utf8EncodeNat (n : Nat) : List Nat :=
  if n < 0x80 then [n]
  else if n < 0x800 then [0xC0 + n / 0x40, 0x80 + n % 0x40]
  else if n < 0x10000 then
    [0xE0 + n / 0x1000, 0x80 + n / 0x40 % 0x40, 0x80 + n % 0x40]
  else
    [0xF0 + n / 0x40000, 0x80 + n / 0x1000 % 0x40, 0x80 + n / 0x40 % 0x40,
      0x80 + n % 0x40]

/-- The uriUnescaped set of encodeURIComponent: ASCII alphanumerics and
- _ . ! ~ * ( ) and the apostrophe (code 39). -/
def uriUnreserved (c : Char) : Bool :=
  let n := c.toNat
  (48 ≤ n && n ≤ 57) || (65 ≤ n && n ≤ 90) || (97 ≤ n && n ≤ 122) ||
  n == 45 || n == 95 || n == 46 || n == 33 || n == 126 || n == 42 ||
  n == 39 || n == 40 || n == 41

/-- ECMAScript encodeURIComponent on a sequence of Unicode scalar values:
unreserved characters pass through, every other character is UTF-8 encoded
and each byte percent-escaped. -/
def encodeURIComponentList (s : List Char) : List Char :=
  s.flatMap fun c =>
    if uriUnreserved c then [c]
    else (utf8EncodeNat c.toNat).flatMap pctEncodeByte

/-- One percent-escaped UTF-8 byte sequence at the head of the input, per
the Decode abstract operation behind ECMAScript decodeURIComponent: one to
four escaped bytes (with continuation-byte, overlong-encoding, surrogate
and range checks); yields the decoded Unicode scalar value and the
remaining input, or none (URIError) when malformed. -/
def decodePctSeq : List Char → Option (Nat × List Char)
  | c0 :: h1 :: h2 :: rest1 =>
    if c0 = '%' then
      match hex2 h1 h2 with
      | none => none
      | some b =>
        if b < 0x80 then some (b, rest1)
        else if b < 0xC0 then none
        else if b < 0xE0 then
          match rest1 with
          | c1 :: h3 :: h4 :: rest2 =>
            if c1 = '%' then
              match hex2 h3 h4 with
              | none => none
              | some b1 =>
                if 0x80 ≤ b1 ∧ b1 < 0xC0 then
                  let n := (b - 0xC0) * 0x40 + (b1 - 0x80)
                  if 0x80 ≤ n then some (n, rest2) else none
                else none
            else none
          | _ => none
        else if b < 0xF0 then
          match rest1 with
          | c1 :: h3 :: h4 :: c2 :: h5 :: h6 :: rest2 =>
            if c1 = '%' ∧ c2 = '%' then
              match hex2 h3 h4, hex2 h5 h6 with
              | some b1, some b2 =>
                if (0x80 ≤ b1 ∧ b1 < 0xC0) ∧ (0x80 ≤ b2 ∧ b2 < 0xC0) then
                  let n := (b - 0xE0) * 0x1000 + (b1 - 0x80) * 0x40 +
                    (b2 - 0x80)
                  if 0x800 ≤ n ∧ ¬(0xD800 ≤ n ∧ n ≤ 0xDFFF) then
                    some (n, rest2)
                  else none
                else none
              | _, _ => none
            else none
          | _ => none
        else if b < 0xF8 then
          match rest1 with
          | c1 :: h3 :: h4 :: c2 :: h5 :: h6 :: c3 :: h7 :: h8 :: rest2 =>
            if c1 = '%' ∧ c2 = '%' ∧ c3 = '%' then
              match hex2 h3 h4, hex2 h5 h6, hex2 h7 h8 with
              | some b1, some b2, some b3 =>
                if (0x80 ≤ b1 ∧ b1 < 0xC0) ∧ (0x80 ≤ b2 ∧ b2 < 0xC0) ∧
                    (0x80 ≤ b3 ∧ b3 < 0xC0) then
                  let n := (b - 0xF0) * 0x40000 + (b1 - 0x80) * 0x1000 +
                    (b2 - 0x80) * 0x40 + (b3 - 0x80)
                  if 0x10000 ≤ n ∧ n ≤ 0x10FFFF then some (n, rest2)
                  else none
                else none
              | _, _, _ => none
            else none
          | _ => none
        else none
    else none
  | _ => none

/-- Fuelled worker for decodeURIComponent: characters other than the
percent sign pass through; a percent sign starts an escape sequence parsed
by decodePctSeq.  The fuel starts at the string length and each step
consumes at least one character, so it is never exhausted. -/
def decodeURIGo : Nat → List Char → Option (List Char)
  | _, [] => some []
  | 0, _ => none
  | fuel + 1, c :: rest =>
    if c = '%' then
      match decodePctSeq (c :: rest) with
      | none => none
      | some (n, rest2) => (Char.ofNat n :: ·) <$> decodeURIGo fuel rest2
    else
      (c :: ·) <$> decodeURIGo fuel rest

/-- ECMAScript decodeURIComponent on a sequence of Unicode scalar values;
none models the URIError throw on malformed input. -/
def decodeURIComponentList (s : List Char) : Option (List Char) :=
  decodeURIGo s.length s

/-- Character of one base64 sextet (the standard alphabet used by btoa). -/
def b64Char (n : Nat) : Char :=
  if n < 26 then Char.ofNat (65 + n)
  else if n < 52 then Char.ofNat (97 + n - 26)
  else if n < 62 then Char.ofNat (48 + n - 52)
  else if n = 62 then '+'
  else '/'

/-- Sextet value of a base64 alphabet character. -/
def b64Index (c : Char) : Option Nat :=
  let n := c.toNat
  if 65 ≤ n ∧ n ≤ 90 then some (n - 65)
  else if 97 ≤ n ∧ n ≤ 122 then some (n - 71)
  else if 48 ≤ n ∧ n ≤ 57 then some (n + 4)
  else if n = 43 then some 62
  else if n = 47 then some 63
  else none

/-- Base64 encoding of a byte sequence, with '=' padding, three bytes to
four characters (the byte-level core of WindowOrWorkerGlobalScope.btoa). -/
def btoaBytes : List Nat → List Char
  | [] => []
  | [b0] => [b64Char (b0 / 4), b64Char (b0 % 4 * 16), '=', '=']
  | [b0, b1] =>
    [b64Char (b0 / 4), b64Char (b0 % 4 * 16 + b1 / 16), b64Char (b1 % 16 * 4),
      '=']
  | b0 :: b1 :: b2 :: rest =>
    b64Char (b0 / 4) :: b64Char (b0 % 4 * 16 + b1 / 16) ::
      b64Char (b1 % 16 * 4 + b2 / 64) :: b64Char (b2 % 64) :: btoaBytes rest

/-- Base64 decoding to a byte sequence (the byte-level core of
WindowOrWorkerGlobalScope.atob, WHATWG forgiving-base64: padding only at the
end, excess bits of a final partial group are discarded); none models the
InvalidCharacterError throw. -/
def atobChars : List Char → Option (List Nat)
  | [] => some []
  | c0 :: c1 :: c2 :: c3 :: rest =>
    match b64Index c0, b64Index c1 with
    | some v0, some v1 =>
      if c2 = '=' then
        if c3 = '=' ∧ rest = [] then some [v0 * 4 + v1 / 16] else none
      else
        match b64Index c2 with
        | some v2 =>
          if c3 = '=' then
            if rest = [] then some [v0 * 4 + v1 / 16, v1 % 16 * 16 + v2 / 4]
            else none
          else
            match b64Index c3 with
            | some v3 =>
              (fun bs => (v0 * 4 + v1 / 16) :: (v1 % 16 * 16 + v2 / 4) ::
                (v2 % 4 * 64 + v3) :: bs) <$> atobChars rest
            | none => none
        | none => none
    | _, _ => none
  | _ => none

/-- WindowOrWorkerGlobalScope.btoa: fails (none) when some character is
above code 255, otherwise base64-encodes the character codes as bytes. -/
def btoa (s : List Char) : Option (List Char) :=
  if s.all fun c => c.toNat < 256 then some (btoaBytes (s.map Char.toNat))
  else none

/-- WindowOrWorkerGlobalScope.atob: base64-decodes to a string whose
character codes are the decoded bytes. -/
def atob (s : List Char) : Option (List Char) :=
  (atobChars s).map fun bs => bs.map Char.ofNat

/-- utils.ts strToBase64: btoa(encodeURIComponent(str)).  The Option result
models the btoa throw (never hit: encodeURIComponent output is ASCII). -/
def strToBase64 (str : List Char) : Option (List Char) :=
  btoa (encodeURIComponentList str)

/-- utils.ts base64ToStr: decodeURIComponent(atob(base64)).  The Option
result models the atob / decodeURIComponent throws on malformed input. -/
def base64ToStr (base64 : List Char) : Option (List Char) :=
  (atob base64).bind decodeURIComponentList

/-- The JavaScript regular-expression dot outside a class: any character
except a LineTerminator. -/
def jsDotMatch (c : Char) : Bool :=
  !(c.toNat == 10 || c.toNat == 13 || c.toNat == 0x2028 || c.toNat == 0x2029)

/-- Drops the literal p from the front of l, or fails. -/
def litDrop (p l : List Char) : Option (List Char) :=
  if p.isPrefixOf l then some (l.drop p.length) else none

/-- The five path-segment literals of the link-validation pattern. -/
def saavnSegs : List (List Char) :=
  ["song".toList, "shows".toList, "album".toList, "artist".toList,
    "featured".toList]

/-- Matches (song|shows|album|artist|featured)/(.+)$ against l. -/
def matchSegTail (l : List Char) : Bool :=
  saavnSegs.any fun seg =>
    match litDrop (seg ++ ['/']) l with
    | some r => !r.isEmpty && r.all jsDotMatch
    | none => false

/-- Matches jiosaavn.com/(song|shows|album|artist|featured)/(.+)$
(the dot of jiosaavn.com is escaped in the pattern, hence literal). -/
def matchHostTail (l : List Char) : Bool :=
  match litDrop "jiosaavn.com/".toList l with
  | some r => matchSegTail r
  | none => false

/-- Matches (www.)?jiosaavn.com/... : the dot after www is NOT escaped in
the source pattern, so it matches any non-LineTerminator character. -/
def matchOptWww (l : List Char) : Bool :=
  matchHostTail l ||
  (match l with
   | a :: b :: c :: d :: r =>
     a == 'w' && b == 'w' && c == 'w' && jsDotMatch d && matchHostTail r
   | _ => false)

/-- utils.ts isJioSaavnLink: regex.test with the pattern
(no flags, hence case-sensitive)
of an optional http:// or https:// scheme, an optional www. group (unescaped
dot), the literal host jiosaavn.com, one of five path segments, a slash and
a non-empty remainder of non-LineTerminator characters, anchored both ends.
Existence of a match is decided by trying the alternatives. -/
def isJioSaavnLink (url : List Char) : Bool :=
  matchOptWww url ||
  (match litDrop "http://".toList url with
   | some r => matchOptWww r
   | none => false) ||
  (match litDrop "https://".toList url with
   | some r => matchOptWww r
   | none => false)

/-- Drops the literal p (given in lower case) from the front of l comparing
case-insensitively (via the ASCII lower-case map). -/
def ciLitDrop (p l : List Char) : Option (List Char) :=
  if (l.take p.length).map jsToLower = p then some (l.drop p.length)
  else none

/-- Matches (www.)?jiosaavn.com/... with the letters of www and of the host
compared case-insensitively. -/
def ciMatchOptWww (l : List Char) : Bool :=
  (match ciLitDrop "jiosaavn.com/".toList l with
   | some r => matchSegTail r
   | none => false) ||
  (match l with
   | a :: b :: c :: d :: r =>
     jsToLower a == 'w' && jsToLower b == 'w' && jsToLower c == 'w' &&
     jsDotMatch d &&
     (match ciLitDrop "jiosaavn.com/".toList r with
      | some r1 => matchSegTail r1
      | none => false)
   | _ => false)

/-- The link pattern as the specification reads it: identical to
isJioSaavnLink except that the protocol and the host are matched
case-insensitively. -/
def isJioSaavnLinkCI (url : List Char) : Bool :=
  ciMatchOptWww url ||
  (match ciLitDrop "http://".toList url with
   | some r => ciMatchOptWww r
   | none => false) ||
  (match ciLitDrop "https://".toList url with
   | some r => ciMatchOptWww r
   | none => false)

/-- Host portion of a URL: what stands between the optional http(s)://
scheme and the first slash. -/
def urlHost (url : List Char) : List Char :=
  (match litDrop "https://".toList url with
   | some r => r
   | none =>
     match litDrop "http://".toList url with
     | some r => r
     | none => url).takeWhile (· ≠ '/')

/-- A structured artist record of the catalog (fields used by utils.ts:
name and url, the latter carrying the artist identifier). -/
structure AlbumArtist where
  name : List Char
  url : List Char
deriving DecidableEq

/-- An artist-bearing field of a catalog item: either a comma-and-space
joined string or a structured list. -/
inductive ArtistField where
  | str (s : List Char)
  | list (l : List AlbumArtist)
deriving DecidableEq

/-- The fields of a catalog item (Song or Album) destructured by
getArtists / getArtistIds.  Each artist-bearing field may be absent
(undefined), modelled by Option. -/
structure CatalogItem where
  artists : Option ArtistField
  primaryArtists : Option ArtistField
  featuredArtists : Option ArtistField
  primaryArtistsId : List Char

/-- The inner getArtistsFromList of utils.ts getArtists: a string field is
split on ", " when non-empty and yields the empty list when empty; a
structured list is mapped to its name field; an absent field yields
null/undefined (none). -/
def getArtistsFromList : Option ArtistField → Option (List (List Char))
  | some (.str s) => some (if s.length ≠ 0 then jsSplit ", ".toList s else [])
  | some (.list l) => some (l.map AlbumArtist.name)
  | none => none

/-- Insertion into the JS Set of getArtists: insertion order is kept and a
re-inserted element keeps its first position. -/
def insertUnique (acc : List (List Char)) (x : List Char) : List (List Char) :=
  if x ∈ acc then acc else acc ++ [x]

/-- The inner addArtistsToList of utils.ts getArtists: adds each name of a
present list to the Set, in order. -/
def addArtistsToList (acc : List (List Char)) :
    Option (List (List Char)) → List (List Char)
  | some xs => xs.foldl insertUnique acc
  | none => acc

/-- utils.ts getArtists: normalize the three artist-bearing fields, union
them into an insertion-ordered Set (artists, then primaryArtists, then
featuredArtists), and join with ", ". -/
def getArtists (item : CatalogItem) : List Char :=
  List.intercalate ", ".toList
    (addArtistsToList
      (addArtistsToList
        (addArtistsToList [] (getArtistsFromList item.artists))
        (getArtistsFromList item.primaryArtists))
      (getArtistsFromList item.featuredArtists))

/-- The inner getArtistIdsFromList of utils.ts getArtistIds: a structured
list is mapped to its url field; a string field (or an absent field) yields
null/undefined (none). -/
def getArtistIdsFromList : Option ArtistField → Option (List (List Char))
  | some (.list l) => some (l.map AlbumArtist.url)
  | _ => none

/-- utils.ts getArtistIds: split the primaryArtistsId string on ", " and
append the url fields of the structured primary and featured lists (the
null-coalescing of the source turns an absent contribution into []). -/
def getArtistIds (item : CatalogItem) : List (List Char) :=
  jsSplit ", ".toList item.primaryArtistsId ++
    ((getArtistIdsFromList item.primaryArtists).getD [] ++
      (getArtistIdsFromList item.featuredArtists).getD [])

/-- One image variant of the catalog (field used by utils.ts: link). -/
structure ImageLink where
  link : List Char
deriving DecidableEq

/-- The image field of a catalog item: either a boolean sentinel (no image)
or the list of variants. -/
inductive ImageData where
  | sentinel (b : Bool)
  | variants (links : List ImageLink)

/-- The image quality argument of getImage. -/
inductive ImageQuality where
  | small
  | medium
  | large

/-- utils.ts getImage: the boolean sentinel yields the fixed placeholder
asset path; otherwise quality large / medium / small selects index 2 / 1 / 0
and an unspecified quality selects index 2.  Indexing past the end of the
variant list is the JS undefined, modelled by none. -/
def getImage (image : ImageData) (quality : Option ImageQuality) :
    Option (List Char) :=
  match image with
  | .sentinel _ => some "/images/logo512.png".toList
  | .variants links =>
    match quality with
    | some .large => (links[2]?).map ImageLink.link
    | some .medium => (links[1]?).map ImageLink.link
    | some .small => (links[0]?).map ImageLink.link
    | none => (links[2]?).map ImageLink.link

/-- The trending part of the raw home payload returned by the catalog
api. -/
structure TrendingData (α : Type) where
  albums : List α
  songs : List α

/-- The raw home payload returned by the catalog api and stored in the
process-wide store. -/
structure HomeDataPayload (α : Type) where
  trending : TrendingData α
  albums : List α
  playlists : List α
  charts : List α

/-- The reshaped aggregate that getHomeData returns. -/
structure HomeAggregate (α : Type) where
  trending : List α
  albums : List α
  playlists : List α
  charts : List α
deriving DecidableEq

/-- The reshaping step of utils.ts getHomeData: trending becomes the
trending albums followed by the trending songs; the other fields pass
through. -/
def reshapeHome {α : Type} (d : HomeDataPayload α) : HomeAggregate α :=
  { trending := d.trending.albums ++ d.trending.songs
    albums := d.albums
    playlists := d.playlists
    charts := d.charts }

/-- utils.ts getHomeData with the process-wide store made explicit: cache is
the store slice read at entry, fetched is what api.getHomeData would return
(none models a falsy payload).  Result: the value returned to the caller,
the store slice after the call, and the number of api fetches performed.
The source reads the cache, fetches only on a cache miss, dispatches the raw
payload to the store only when the payload is truthy and the cache was
empty, and returns the reshaped payload (or the falsy payload itself). -/
def getHomeData {α : Type} (cache fetched : Option (HomeDataPayload α)) :
    Option (HomeAggregate α) × Option (HomeDataPayload α) × Nat :=
  let fetchCount : Nat := if cache.isSome then 0 else 1
  let homeData : Option (HomeDataPayload α) :=
    match cache with
    | some d => some d
    | none => fetched
  let newCache : Option (HomeDataPayload α) :=
    match homeData, cache with
    | some d, none => some d
    | _, _ => cache
  (homeData.map reshapeHome, newCache, fetchCount)

/-- The audio quality enum of utils.ts, with its URL suffix token values. -/
inductive SongQuality where
  | low
  | medium
  | high
  | best
  | lossless

/-- The string value of a SongQuality member. -/
def SongQuality.token : SongQuality → List Char
  | .low => "_12".toList
  | .medium => "_48".toList
  | .high => "_96".toList
  | .best => "_160".toList
  | .lossless => "_320".toList

/-- One download-link record of a song (field used by utils.ts: link). -/
structure DownloadLink where
  link : List Char

/-- The fields of a song destructured by downloadSong. -/
structure Song where
  name : List Char
  year : List Char
  downloadUrl : List DownloadLink

/-- The browser effects used inside the try block of downloadSong; each may
throw (Except.error).  decodeName stands for decodeHtml (a DOMParser round
trip) with its possibly-null textContent result. -/
structure DownloadEnv (ε ρ β : Type) where
  fetch : List Char → Except ε ρ
  blob : ρ → Except ε β
  createObjectURL : β → Except ε (List Char)
  decodeName : List Char → Option (List Char)
  saveViaAnchor : List Char → List Char → Except ε Unit

/-- The requested download link of utils.ts downloadSong:
song.downloadUrl[0].link.replace("_12.mp4", quality + ".mp4"). -/
def requestedLink (dl : DownloadLink) (quality : SongQuality) : List Char :=
  jsReplaceFirst "_12.mp4".toList (quality.token ++ ".mp4".toList) dl.link

/-- The body of the try block of utils.ts downloadSong: fetch the link,
decode the blob, create an object URL, and save it under the filename built
from the entity-decoded name and the year (a null textContent renders as
the string null in the template literal). -/
def downloadBody {ε ρ β : Type} (env : DownloadEnv ε ρ β) (song : Song)
    (link : List Char) : Except ε Unit := do
  let response ← env.fetch link
  let b ← env.blob response
  let url ← env.createObjectURL b
  env.saveViaAnchor url
    (((env.decodeName song.name).getD "null".toList) ++ [' '] ++ song.year ++
      ".mp3".toList)

/-- The outcome of a downloadSong call: ok logged means the returned promise
resolved normally after logging the listed errors; exn means an exception
escaped (only possible before the try block, when downloadUrl[0] is
absent). -/
inductive DlResult (ε : Type) where
  | ok (logged : List ε)
  | exn

/-- utils.ts downloadSong: reads downloadUrl[0].link (outside the try block,
so a missing first link propagates as an exception), rewrites the quality
suffix, then runs the fetch / blob / object-URL / anchor-save sequence
inside try, logging and absorbing any error. -/
def downloadSong {ε ρ β : Type} (env : DownloadEnv ε ρ β) (song : Song)
    (quality : SongQuality) : DlResult ε :=
  match song.downloadUrl[0]? with
  | none => .exn
  | some dl =>
    match downloadBody env song (requestedLink dl quality) with
    | .ok _ => .ok []
    | .error e => .ok [e]

/-- First-seen deduplication written as a recursive filter; the
specification-side description of the insertion-ordered JS Set union in
getArtists. -/
def firstSeen : List (List Char) → List (List Char)
  | [] => []
  | x :: xs => x :: firstSeen (xs.filter fun y => decide (y ≠ x))
termination_by l => l.length
decreasing_by
  simp only [List.length_cons]
  exact Nat.lt_succ_of_le (List.length_filter_le _ _)

/-- Specification-side normalization of one artist-bearing field: a string
splits on ", " (empty list for the empty string), a structured list maps to
its name field. -/
def fieldNames : ArtistField → List (List Char)
  | .str s => if s = [] then [] else jsSplit ", ".toList s
  | .list l => l.map AlbumArtist.name

/-- Every character of the remainder is matched by the unflagged dot. -/
def DotOk (l : List Char) : Prop := ∀ c ∈ l, jsDotMatch c = true

/-- The anchored link pattern, read case-sensitively, as an existential
decomposition: an optional scheme, an optional www-plus-any-character
group, the literal host, one of the five segments, a slash, and a non-empty
remainder of dot-matched characters. -/
def JioPattern (l : List Char) : Prop :=
  ∃ proto www seg rest,
    proto ∈ [([] : List Char), "http://".toList, "https://".toList] ∧
    (www = [] ∨ ∃ c, jsDotMatch c = true ∧ www = ['w', 'w', 'w', c]) ∧
    seg ∈ saavnSegs ∧ rest ≠ [] ∧ DotOk rest ∧
    l = proto ++ www ++ "jiosaavn.com/".toList ++ seg ++ '/' :: rest

/-- A download environment whose fetch fails; the other effects succeed. -/
def envFailingFetch : DownloadEnv (List Char) Unit Unit where
  fetch := fun _ => .error "network failure".toList
  blob := fun _ => .ok ()
  createObjectURL := fun _ => .ok "blob:demo".toList
  decodeName := fun s => some s
  saveViaAnchor := fun _ _ => .ok ()

/-- A song with one (lowest-quality) download link. -/
def demoSong : Song where
  name := "Track".toList
  year := "2020".toList
  downloadUrl := [⟨"https://cdn.example/_12.mp4".toList⟩]

/-- C5: for every integer s with 0 ≤ s, formatTime s is the minutes
floor(s/60) without zero-padding, a colon, and s mod 60 zero-padded to two
digits when below 10; concretely 0, 59, 60, 225 and 3661 seconds render as
0:00, 0:59, 1:00, 3:45 and 61:01. -/
theorem formatTime_spec :
    (∀ s : Nat, formatTime s =
      toString (s / 60) ++ ":" ++ (if s % 60 < 10 then "0" else "") ++
        toString (s % 60)) ∧
    formatTime 0 = "0:00" ∧ formatTime 59 = "0:59" ∧ formatTime 60 = "1:00" ∧
    formatTime 225 = "3:45" ∧ formatTime 3661 = "61:01" := by
  refine ⟨fun s => ?_, by decide, by decide, by decide, by decide, by decide⟩
  simp only [formatTime]
  by_cases h : s % 60 < 10
  · rw [if_pos h, if_pos h, ← String.append_assoc]
  · rw [if_neg h, if_neg h, String.append_empty]

/-- C6 counterexample: clearUrl maps the two-space input to a single hyphen
(the final replaceAll("--", "-") pass does collapse one double hyphen), so
the claimed output a--b is wrong. -/
theorem clearUrl_two_spaces_counterexample :
    clearUrl "A  B".toList = "a-b".toList ∧
    clearUrl "A  B".toList ≠ "a--b".toList := by decide

/-- C6 amended: clearUrl maps Hello, World! to hello-world and A-space-space-B
to a-b; the single non-recursive collapse pass leaves a double hyphen only
for three or more consecutive spaces, e.g. A-three-spaces-B gives a--b. -/
theorem clearUrl_amended :
    clearUrl "Hello, World!".toList = "hello-world".toList ∧
    clearUrl "A  B".toList = "a-b".toList ∧
    clearUrl "A   B".toList = "a--b".toList := by decide

/-- C8: getImage returns the fixed placeholder path on the boolean sentinel,
and on a three-element low-to-high variant list returns index 0 for small,
1 for medium, 2 for large, and 2 for an unspecified quality. -/
theorem getImage_spec :
    (∀ (b : Bool) (q : Option ImageQuality),
      getImage (.sentinel b) q = some "/images/logo512.png".toList) ∧
    (∀ v0 v1 v2 : ImageLink,
      getImage (.variants [v0, v1, v2]) (some .small) = some v0.link ∧
      getImage (.variants [v0, v1, v2]) (some .medium) = some v1.link ∧
      getImage (.variants [v0, v1, v2]) (some .large) = some v2.link ∧
      getImage (.variants [v0, v1, v2]) none = some v2.link) := by
  exact ⟨fun b q => rfl, fun v0 v1 v2 => ⟨rfl, rfl, rfl, rfl⟩⟩

/-- C2: getArtistIds ignores the artists field and concatenates, without
deduplication, the primaryArtistsId string split on ", ", the url fields of
a structured primaryArtists list, and the url fields of a structured
featuredArtists list; a plain-string primaryArtists or featuredArtists
contributes no ids. -/
theorem getArtistIds_spec :
    ∀ (a p f : Option ArtistField) (pid : List Char),
      getArtistIds ⟨a, p, f, pid⟩ =
        jsSplit ", ".toList pid ++
          ((match p with
            | some (.list l) => l.map AlbumArtist.url
            | _ => []) ++
            (match f with
             | some (.list l) => l.map AlbumArtist.url
             | _ => [])) := by
  intro a p f pid
  rcases p with _ | pf <;> rcases f with _ | ff <;>
    first
      | rfl
      | (rcases pf with s | l <;> first
          | rfl
          | (rcases ff with s2 | l2 <;> rfl))
      | (rcases ff with s2 | l2 <;> rfl)

/-- C3: with the process-wide store as explicit state, a call on an empty
cache performs exactly one fetch and stores the raw payload; a call on a
populated cache performs zero fetches; every call whose payload is present
returns the reshaped aggregate, whose trending field is trending albums
followed by trending songs and whose other fields pass through. -/
theorem getHomeData_cache_spec {α : Type} :
    (∀ d : HomeDataPayload α,
      getHomeData none (some d) = (some (reshapeHome d), some d, 1)) ∧
    (∀ (d : HomeDataPayload α) (fetched : Option (HomeDataPayload α)),
      getHomeData (some d) fetched = (some (reshapeHome d), some d, 0)) ∧
    (∀ d : HomeDataPayload α,
      reshapeHome d =
        { trending := d.trending.albums ++ d.trending.songs
          albums := d.albums
          playlists := d.playlists
          charts := d.charts }) := by
  exact ⟨fun d => rfl, fun d fetched => rfl, fun d => rfl⟩

/-- C10: the dot after www in the pattern is unescaped, so a URL whose host
is wwwxjiosaavn.com (not jiosaavn.com) is nevertheless accepted. -/
theorem isJioSaavnLink_unescaped_dot :
    isJioSaavnLink "https://wwwxjiosaavn.com/song/abc".toList = true ∧
    urlHost "https://wwwxjiosaavn.com/song/abc".toList =
      "wwwxjiosaavn.com".toList ∧
    "wwwxjiosaavn.com".toList ≠ "jiosaavn.com".toList ∧
    "wwwxjiosaavn.com".toList ≠ "www.jiosaavn.com".toList := by decide

/-- C9: when the song has a first download link, every failure raised by the
fetch / blob / object-URL / anchor-save sequence is caught inside
downloadSong and logged, the call resolves normally (ok), and a successful
body logs nothing; in particular downloadSong never propagates a body
error. -/
theorem downloadSong_absorbs {ε ρ β : Type} :
    ∀ (env : DownloadEnv ε ρ β) (song : Song) (quality : SongQuality)
      (dl : DownloadLink), song.downloadUrl[0]? = some dl →
      ((∀ e, downloadBody env song (requestedLink dl quality) = .error e →
        downloadSong env song quality = .ok [e]) ∧
      (downloadBody env song (requestedLink dl quality) = .ok () →
        downloadSong env song quality = .ok []) ∧
      ∃ logged, downloadSong env song quality = .ok logged) := by
  intro env song quality dl h
  have hds : downloadSong env song quality =
      (match downloadBody env song (requestedLink dl quality) with
        | .ok _ => DlResult.ok []
        | .error e => DlResult.ok [e]) := by
    unfold downloadSong
    rw [h]
  refine ⟨fun e he => ?_, fun he => ?_, ?_⟩
  · rw [hds, he]
  · rw [hds, he]
  · rcases hb : downloadBody env song (requestedLink dl quality) with e | u
    · exact ⟨[e], by rw [hds, hb]⟩
    · exact ⟨[], by rw [hds, hb]⟩

/-- C9 witness: a concrete environment whose fetch fails with a network
error; downloadSong resolves normally and logs exactly that error. -/
theorem downloadSong_absorbs_witness :
    downloadSong envFailingFetch demoSong .lossless =
      .ok ["network failure".toList] :=
  (downloadSong_absorbs envFailingFetch demoSong .lossless
    ⟨"https://cdn.example/_12.mp4".toList⟩ rfl).1 "network failure".toList rfl

/-- Folding insertUnique over a list appends, after the accumulator, the
first-seen deduplication of the elements not already in the accumulator. -/
theorem foldl_insertUnique_eq (xs : List (List Char)) :
    ∀ acc, xs.foldl insertUnique acc =
      acc ++ firstSeen (xs.filter fun x => decide (x ∉ acc)) := by
  induction xs with
  | nil => intro acc; simp [firstSeen]
  | cons x xs ih =>
    intro acc
    simp only [List.foldl_cons, List.filter_cons]
    by_cases hx : x ∈ acc
    · have h1 : insertUnique acc x = acc := by simp [insertUnique, hx]
      rw [h1, ih]
      simp [hx]
    · have h1 : insertUnique acc x = acc ++ [x] := by simp [insertUnique, hx]
      rw [h1, ih, if_pos (decide_eq_true hx), List.append_assoc]
      conv_rhs => rw [firstSeen.eq_def]
      dsimp only
      simp only [List.singleton_append]
      congr 2
      rw [List.filter_filter]
      apply congrArg
      apply List.filter_congr
      intro y hy
      by_cases h2 : y = x <;> by_cases h3 : y ∈ acc <;>
        simp [h2, h3, List.mem_append]

/-- The code-side normalization of a present field agrees with the
specification-side fieldNames. -/
theorem getArtistsFromList_some (af : ArtistField) :
    getArtistsFromList (some af) = some (fieldNames af) := by
  cases af with
  | str s => cases s <;> simp [getArtistsFromList, fieldNames]
  | list l => rfl

/-- C1: for a catalog item whose three artist-bearing fields are present
(each a comma-and-space-joined string or a structured list), getArtists
joins with ", " the first-seen deduplication of the normalized names taken
in the order artists, primaryArtists, featuredArtists; in particular
artists [A, B], primaryArtists "B, C", featuredArtists [] yields
"A, B, C". -/
theorem getArtists_spec :
    (∀ (a p f : ArtistField) (pid : List Char),
      getArtists ⟨some a, some p, some f, pid⟩ =
        List.intercalate ", ".toList
          (firstSeen (fieldNames a ++ fieldNames p ++ fieldNames f))) ∧
    getArtists ⟨some (.list [⟨"A".toList, "uA".toList⟩,
        ⟨"B".toList, "uB".toList⟩]), some (.str "B, C".toList),
        some (.list []), []⟩ = "A, B, C".toList := by
  constructor
  · intro a p f pid
    unfold getArtists
    rw [getArtistsFromList_some, getArtistsFromList_some,
      getArtistsFromList_some]
    simp only [addArtistsToList]
    have key : (fieldNames a ++ fieldNames p ++ fieldNames f).foldl
        insertUnique [] =
        firstSeen (fieldNames a ++ fieldNames p ++ fieldNames f) := by
      rw [foldl_insertUnique_eq]
      simp
    congr 1
    rw [← key, List.foldl_append, List.foldl_append]
  · decide

/-- litDrop succeeds with remainder r exactly when the input is the literal
followed by r. -/
theorem litDrop_eq_some {p l r : List Char} :
    litDrop p l = some r ↔ l = p ++ r := by
  constructor
  · intro h
    unfold litDrop at h
    by_cases hp : p.isPrefixOf l
    · rw [if_pos hp] at h
      obtain ⟨t, rfl⟩ := List.isPrefixOf_iff_prefix.mp hp
      injection h with h2
      rw [← h2, List.drop_left]
    · rw [if_neg hp] at h
      exact absurd h (by simp)
  · rintro rfl
    have hp : p.isPrefixOf (p ++ r) = true :=
      List.isPrefixOf_iff_prefix.mpr ⟨r, rfl⟩
    unfold litDrop
    rw [if_pos hp, List.drop_left]

/-- Characterization of the segment-and-remainder matcher. -/
theorem matchSegTail_iff {l : List Char} :
    matchSegTail l = true ↔
      ∃ seg rest, seg ∈ saavnSegs ∧ rest ≠ [] ∧ DotOk rest ∧
        l = seg ++ '/' :: rest := by
  unfold matchSegTail
  rw [List.any_eq_true]
  constructor
  · rintro ⟨seg, hseg, hm⟩
    rcases hd : litDrop (seg ++ ['/']) l with _ | r
    · rw [hd] at hm
      exact absurd hm (by simp)
    · rw [hd] at hm
      rw [Bool.and_eq_true] at hm
      obtain ⟨hne, hall⟩ := hm
      refine ⟨seg, r, hseg, ?_, ?_, ?_⟩
      · intro hnil
        rw [hnil] at hne
        exact absurd hne (by decide)
      · exact fun c hc => List.all_eq_true.mp hall c hc
      · rw [litDrop_eq_some.mp hd, List.append_assoc]
        rfl
  · rintro ⟨seg, rest, hseg, hne, hdot, rfl⟩
    refine ⟨seg, hseg, ?_⟩
    have hd : litDrop (seg ++ ['/']) (seg ++ '/' :: rest) = some rest :=
      litDrop_eq_some.mpr (by rw [List.append_assoc]; rfl)
    rw [hd, Bool.and_eq_true]
    constructor
    · cases rest with
      | nil => exact absurd rfl hne
      | cons c t => rfl
    · exact List.all_eq_true.mpr hdot

/-- Characterization of the host-and-tail matcher. -/
theorem matchHostTail_iff {l : List Char} :
    matchHostTail l = true ↔
      ∃ seg rest, seg ∈ saavnSegs ∧ rest ≠ [] ∧ DotOk rest ∧
        l = "jiosaavn.com/".toList ++ (seg ++ '/' :: rest) := by
  unfold matchHostTail
  constructor
  · intro hm
    rcases hd : litDrop "jiosaavn.com/".toList l with _ | r
    · rw [hd] at hm
      exact absurd hm (by simp)
    · rw [hd] at hm
      obtain ⟨seg, rest, h1, h2, h3, rfl⟩ := matchSegTail_iff.mp hm
      exact ⟨seg, rest, h1, h2, h3, litDrop_eq_some.mp hd⟩
  · rintro ⟨seg, rest, h1, h2, h3, rfl⟩
    rw [litDrop_eq_some.mpr rfl]
    exact matchSegTail_iff.mpr ⟨seg, rest, h1, h2, h3, rfl⟩

/-- Characterization of the optional-www matcher. -/
theorem matchOptWww_iff {l : List Char} :
    matchOptWww l = true ↔
      ∃ www seg rest,
        (www = [] ∨ ∃ c, jsDotMatch c = true ∧ www = ['w', 'w', 'w', c]) ∧
        seg ∈ saavnSegs ∧ rest ≠ [] ∧ DotOk rest ∧
        l = www ++ "jiosaavn.com/".toList ++ seg ++ '/' :: rest := by
  unfold matchOptWww
  rw [Bool.or_eq_true]
  constructor
  · rintro (h | h)
    · obtain ⟨seg, rest, h1, h2, h3, rfl⟩ := matchHostTail_iff.mp h
      exact ⟨[], seg, rest, Or.inl rfl, h1, h2, h3, by
        simp [List.append_assoc]⟩
    · rcases l with _ | ⟨a, _ | ⟨b, _ | ⟨c, _ | ⟨d, r⟩⟩⟩⟩
      · exact absurd h (by simp)
      · exact absurd h (by simp)
      · exact absurd h (by simp)
      · exact absurd h (by simp)
      · simp only [Bool.and_eq_true, beq_iff_eq] at h
        obtain ⟨⟨⟨⟨ha, hb⟩, hc⟩, hd⟩, hm⟩ := h
        subst ha
        subst hb
        subst hc
        obtain ⟨seg, rest, h1, h2, h3, rfl⟩ := matchHostTail_iff.mp hm
        refine ⟨['w', 'w', 'w', d], seg, rest, Or.inr ⟨d, hd, rfl⟩, h1, h2,
          h3, ?_⟩
        simp [List.append_assoc]
  · rintro ⟨www, seg, rest, hwww, h1, h2, h3, rfl⟩
    have hm : matchHostTail
        ("jiosaavn.com/".toList ++ (seg ++ '/' :: rest)) = true :=
      matchHostTail_iff.mpr ⟨seg, rest, h1, h2, h3, rfl⟩
    rcases hwww with rfl | ⟨c, hc, rfl⟩
    · refine Or.inl ?_
      simpa [List.append_assoc] using hm
    · refine Or.inr ?_
      simp only [List.cons_append, List.nil_append]
      simp [hc, List.append_assoc]
      exact hm

/-- Characterization of isJioSaavnLink: it accepts exactly the
decompositions of the anchored, case-sensitively matched pattern. -/
theorem isJioSaavnLink_iff {url : List Char} :
    isJioSaavnLink url = true ↔ JioPattern url := by
  unfold isJioSaavnLink JioPattern
  rw [Bool.or_eq_true, Bool.or_eq_true]
  constructor
  · rintro ((h | h) | h)
    · obtain ⟨www, seg, rest, hw, h1, h2, h3, rfl⟩ := matchOptWww_iff.mp h
      exact ⟨[], www, seg, rest, by simp, hw, h1, h2, h3, by simp⟩
    · rcases hd : litDrop "http://".toList url with _ | r
      · rw [hd] at h
        exact absurd h (by simp)
      · rw [hd] at h
        obtain ⟨www, seg, rest, hw, h1, h2, h3, rfl⟩ := matchOptWww_iff.mp h
        refine ⟨"http://".toList, www, seg, rest, by simp, hw, h1, h2, h3, ?_⟩
        rw [litDrop_eq_some.mp hd]
        simp [List.append_assoc]
    · rcases hd : litDrop "https://".toList url with _ | r
      · rw [hd] at h
        exact absurd h (by simp)
      · rw [hd] at h
        obtain ⟨www, seg, rest, hw, h1, h2, h3, rfl⟩ := matchOptWww_iff.mp h
        refine ⟨"https://".toList, www, seg, rest, by simp, hw, h1, h2, h3,
          ?_⟩
        rw [litDrop_eq_some.mp hd]
        simp [List.append_assoc]
  · rintro ⟨proto, www, seg, rest, hp, hw, h1, h2, h3, rfl⟩
    have hopt : matchOptWww
        (www ++ "jiosaavn.com/".toList ++ seg ++ '/' :: rest) = true :=
      matchOptWww_iff.mpr ⟨www, seg, rest, hw, h1, h2, h3, rfl⟩
    simp only [List.mem_cons, List.not_mem_nil, or_false] at hp
    rcases hp with rfl | rfl | rfl
    · refine Or.inl (Or.inl ?_)
      simpa using hopt
    · refine Or.inl (Or.inr ?_)
      have hd : litDrop "http://".toList
          ("http://".toList ++ www ++ "jiosaavn.com/".toList ++ seg ++
            '/' :: rest) =
          some (www ++ "jiosaavn.com/".toList ++ seg ++ '/' :: rest) :=
        litDrop_eq_some.mpr (by simp [List.append_assoc])
      rw [hd]
      exact hopt
    · refine Or.inr ?_
      have hd : litDrop "https://".toList
          ("https://".toList ++ www ++ "jiosaavn.com/".toList ++ seg ++
            '/' :: rest) =
          some (www ++ "jiosaavn.com/".toList ++ seg ++ '/' :: rest) :=
        litDrop_eq_some.mpr (by simp [List.append_assoc])
      rw [hd]
      exact hopt

/-- C7 counterexample: the source regex literal carries no ignore-case
flag, so the upper-case scheme HTTP:// is rejected by isJioSaavnLink even
though the case-insensitive reading of the pattern accepts it. -/
theorem isJioSaavnLink_not_case_insensitive :
    isJioSaavnLinkCI "HTTP://jiosaavn.com/song/abc".toList = true ∧
    isJioSaavnLink "HTTP://jiosaavn.com/song/abc".toList = false := by decide

/-- C7 amended: isJioSaavnLink returns true exactly for the strings
matching the pattern case-SENSITIVELY (optional https?:// scheme, optional
www-plus-any-character group, literal host jiosaavn.com, one of the five
path segments, and a non-empty remainder); the four concrete examples of
the claim hold. -/
theorem isJioSaavnLink_amended :
    (∀ url : List Char, isJioSaavnLink url = true ↔ JioPattern url) ∧
    isJioSaavnLink "https://www.jiosaavn.com/song/abc".toList = true ∧
    isJioSaavnLink "http://jiosaavn.com/album/xyz".toList = true ∧
    isJioSaavnLink "https://jiosaavn.com/artist/".toList = false ∧
    isJioSaavnLink "https://spotify.com/song/abc".toList = false :=
  ⟨fun url => isJioSaavnLink_iff, by decide, by decide, by decide, by decide⟩

/-- Hex digit round trip. -/
theorem hexVal_hexDigitChar : ∀ d, d < 16 → hexVal (hexDigitChar d) = some d := by
  decide

/-- Percent-escape digit pair round trip. -/
theorem hex2_pct {b : Nat} (hb : b < 256) :
    hex2 (hexDigitChar (b / 16)) (hexDigitChar (b % 16)) = some b := by
  unfold hex2
  rw [hexVal_hexDigitChar _ (by omega), hexVal_hexDigitChar _ (by omega)]
  show (some (16 * (b / 16) + b % 16) : Option Nat) = some b
  congr 1
  omega

/-- Base64 sextet round trip. -/
theorem b64Index_b64Char : ∀ v, v < 64 → b64Index (b64Char v) = some v := by
  decide

/-- A base64 alphabet character is never the padding character. -/
theorem b64Char_ne_pad : ∀ v, v < 64 → b64Char v ≠ '=' := by
  decide

/-- Base64 byte-level round trip: decoding an encoding of bytes gives the
bytes back. -/
theorem atob_btoaBytes (bs : List Nat) (h : ∀ b ∈ bs, b < 256) :
    atobChars (btoaBytes bs) = some bs := by
  match bs with
  | [] => rfl
  | [b0] =>
    have h0 : b0 < 256 := h b0 (by simp)
    simp only [btoaBytes, atobChars]
    rw [b64Index_b64Char _ (by omega), b64Index_b64Char _ (by omega)]
    dsimp only
    simp
    omega
  | [b0, b1] =>
    have h0 : b0 < 256 := h b0 (by simp)
    have h1 : b1 < 256 := h b1 (by simp)
    simp only [btoaBytes, atobChars]
    rw [b64Index_b64Char _ (by omega), b64Index_b64Char _ (by omega)]
    dsimp only
    rw [if_neg (b64Char_ne_pad _ (by omega))]
    rw [b64Index_b64Char _ (by omega)]
    dsimp only
    simp
    constructor
    · omega
    · omega
  | b0 :: b1 :: b2 :: b3 :: rest =>
    have h0 : b0 < 256 := h b0 (by simp)
    have h1 : b1 < 256 := h b1 (by simp)
    have h2 : b2 < 256 := h b2 (by simp)
    have ih := atob_btoaBytes (b3 :: rest) fun b hb => h b (by simp [hb])
    simp only [btoaBytes, atobChars]
    rw [b64Index_b64Char _ (by omega), b64Index_b64Char _ (by omega)]
    dsimp only
    rw [if_neg (b64Char_ne_pad _ (by omega))]
    rw [b64Index_b64Char _ (by omega)]
    dsimp only
    rw [if_neg (b64Char_ne_pad _ (by omega))]
    rw [b64Index_b64Char _ (by omega)]
    dsimp only
    rw [ih]
    simp only [Option.map_some, Option.some.injEq]
    have e0 : b0 / 4 * 4 + (b0 % 4 * 16 + b1 / 16) / 16 = b0 := by omega
    have e1 : (b0 % 4 * 16 + b1 / 16) % 16 * 16 +
        (b1 % 16 * 4 + b2 / 64) / 4 = b1 := by omega
    have e2 : (b1 % 16 * 4 + b2 / 64) % 4 * 64 + b2 % 64 = b2 := by omega
    rw [e0, e1, e2]
  | [b0, b1, b2] =>
    have h0 : b0 < 256 := h b0 (by simp)
    have h1 : b1 < 256 := h b1 (by simp)
    have h2 : b2 < 256 := h b2 (by simp)
    simp only [btoaBytes, atobChars]
    rw [b64Index_b64Char _ (by omega), b64Index_b64Char _ (by omega)]
    dsimp only
    rw [if_neg (b64Char_ne_pad _ (by omega))]
    rw [b64Index_b64Char _ (by omega)]
    dsimp only
    rw [if_neg (b64Char_ne_pad _ (by omega))]
    rw [b64Index_b64Char _ (by omega)]
    dsimp only
    simp only [Option.map_some, Option.some.injEq]
    have e0 : b0 / 4 * 4 + (b0 % 4 * 16 + b1 / 16) / 16 = b0 := by omega
    have e1 : (b0 % 4 * 16 + b1 / 16) % 16 * 16 +
        (b1 % 16 * 4 + b2 / 64) / 4 = b1 := by omega
    have e2 : (b1 % 16 * 4 + b2 / 64) % 4 * 64 + b2 % 64 = b2 := by omega
    rw [e0, e1, e2]

/-- Every scalar value of a character is below 0x110000. -/
theorem char_toNat_lt (c : Char) : c.toNat < 0x110000 := by
  rcases c.valid with h | h
  · have h2 : c.toNat < 55296 := h
    omega
  · exact h.2

/-- No character is a surrogate scalar value. -/
theorem char_not_surrogate (c : Char) :
    ¬(0xD800 ≤ c.toNat ∧ c.toNat ≤ 0xDFFF) := by
  rcases c.valid with h | h
  · have h2 : c.toNat < 55296 := h
    omega
  · have h2 : 57343 < c.toNat := h.1
    omega

/-- The bytes of a UTF-8 encoding are below 256. -/
theorem utf8EncodeNat_lt {n : Nat} (hn : n < 0x110000) :
    ∀ b ∈ utf8EncodeNat n, b < 256 := by
  intro b hb
  unfold utf8EncodeNat at hb
  by_cases h1 : n < 0x80
  · rw [if_pos h1] at hb
    simp at hb
    omega
  · rw [if_neg h1] at hb
    by_cases h2 : n < 0x800
    · rw [if_pos h2] at hb
      simp at hb
      rcases hb with rfl | rfl <;> omega
    · rw [if_neg h2] at hb
      by_cases h3 : n < 0x10000
      · rw [if_pos h3] at hb
        simp at hb
        rcases hb with rfl | rfl | rfl <;> omega
      · rw [if_neg h3] at hb
        simp at hb
        rcases hb with rfl | rfl | rfl | rfl <;> omega

/-- Bound on the hex digit characters. -/
theorem hexDigitChar_lt : ∀ d, d < 16 → (hexDigitChar d).toNat < 256 := by
  decide

/-- A percent-escape of a byte consists of characters with codes below
256. -/
theorem pctEncodeByte_ascii {b : Nat} (hb : b < 256) :
    ∀ x ∈ pctEncodeByte b, x.toNat < 256 := by
  intro x hx
  simp [pctEncodeByte] at hx
  rcases hx with rfl | rfl | rfl
  · decide
  · exact hexDigitChar_lt _ (by omega)
  · exact hexDigitChar_lt _ (by omega)

/-- An unreserved character is ASCII. -/
theorem uriUnreserved_ascii {c : Char} (h : uriUnreserved c = true) :
    c.toNat < 256 := by
  simp [uriUnreserved] at h
  omega

/-- Every character of an encodeURIComponent output has a code below 256
(so btoa accepts it). -/
theorem encodeURIComponent_ascii (s : List Char) :
    ∀ x ∈ encodeURIComponentList s, x.toNat < 256 := by
  intro x hx
  unfold encodeURIComponentList at hx
  simp only [List.mem_flatMap] at hx
  obtain ⟨c, hc, hx⟩ := hx
  by_cases hu : uriUnreserved c
  · rw [if_pos hu] at hx
    simp at hx
    subst hx
    exact uriUnreserved_ascii hu
  · rw [if_neg hu] at hx
    simp only [List.mem_flatMap] at hx
    obtain ⟨b, hb, hx⟩ := hx
    exact pctEncodeByte_ascii (utf8EncodeNat_lt (char_toNat_lt c) b hb) x hx


/-- decodePctSeq undoes the escape of a single byte below 0x80. -/
theorem decodePctSeq_one {b : Nat} (hb : b < 0x80) (rest : List Char) :
    decodePctSeq (pctEncodeByte b ++ rest) = some (b, rest) := by
  simp only [pctEncodeByte, List.cons_append, List.nil_append]
  unfold decodePctSeq
  try dsimp only
  simp only [reduceIte]
  rw [hex2_pct (show b < 256 by omega)]
  try dsimp only
  rw [if_pos hb]

/-- decodePctSeq undoes the escape of a well-formed two-byte UTF-8
sequence. -/
theorem decodePctSeq_two {b b1 : Nat} (h1 : 0xC0 ≤ b) (h2 : b < 0xE0)
    (h4 : 0x80 ≤ b1) (h5 : b1 < 0xC0)
    (h6 : 0x80 ≤ (b - 0xC0) * 0x40 + (b1 - 0x80)) (rest : List Char) :
    decodePctSeq (pctEncodeByte b ++ (pctEncodeByte b1 ++ rest)) =
      some ((b - 0xC0) * 0x40 + (b1 - 0x80), rest) := by
  simp only [pctEncodeByte, List.cons_append, List.nil_append]
  unfold decodePctSeq
  try dsimp only
  simp only [reduceIte]
  rw [hex2_pct (show b < 256 by omega)]
  try dsimp only
  rw [if_neg (show ¬ b < 0x80 by omega), if_neg (show ¬ b < 0xC0 by omega),
    if_pos (show b < 0xE0 from h2)]
  rw [hex2_pct (show b1 < 256 by omega)]
  try dsimp only
  rw [if_pos (show 0x80 ≤ b1 ∧ b1 < 0xC0 from ⟨h4, h5⟩)]
  try dsimp only
  rw [if_pos h6]

/-- decodePctSeq undoes the escape of a well-formed three-byte UTF-8
sequence. -/
theorem decodePctSeq_three {b b1 b2 : Nat} (h1 : 0xE0 ≤ b) (h2 : b < 0xF0)
    (h3 : 0x80 ≤ b1) (h4 : b1 < 0xC0) (h5 : 0x80 ≤ b2) (h6 : b2 < 0xC0)
    (h7 : 0x800 ≤ (b - 0xE0) * 0x1000 + (b1 - 0x80) * 0x40 + (b2 - 0x80))
    (h8 : ¬(0xD800 ≤ (b - 0xE0) * 0x1000 + (b1 - 0x80) * 0x40 + (b2 - 0x80) ∧
      (b - 0xE0) * 0x1000 + (b1 - 0x80) * 0x40 + (b2 - 0x80) ≤ 0xDFFF))
    (rest : List Char) :
    decodePctSeq (pctEncodeByte b ++ (pctEncodeByte b1 ++
        (pctEncodeByte b2 ++ rest))) =
      some ((b - 0xE0) * 0x1000 + (b1 - 0x80) * 0x40 + (b2 - 0x80), rest) := by
  simp only [pctEncodeByte, List.cons_append, List.nil_append]
  unfold decodePctSeq
  try dsimp only
  simp only [reduceIte]
  rw [hex2_pct (show b < 256 by omega)]
  try dsimp only
  rw [if_neg (show ¬ b < 0x80 by omega), if_neg (show ¬ b < 0xC0 by omega),
    if_neg (show ¬ b < 0xE0 by omega), if_pos (show b < 0xF0 from h2)]
  rw [hex2_pct (show b1 < 256 by omega), hex2_pct (show b2 < 256 by omega)]
  try dsimp only
  rw [if_pos (show (0x80 ≤ b1 ∧ b1 < 0xC0) ∧ (0x80 ≤ b2 ∧ b2 < 0xC0) from
    ⟨⟨h3, h4⟩, h5, h6⟩)]
  try dsimp only
  rw [if_pos (show 0x800 ≤ (b - 0xE0) * 0x1000 + (b1 - 0x80) * 0x40 +
    (b2 - 0x80) ∧
    ¬(0xD800 ≤ (b - 0xE0) * 0x1000 + (b1 - 0x80) * 0x40 + (b2 - 0x80) ∧
      (b - 0xE0) * 0x1000 + (b1 - 0x80) * 0x40 + (b2 - 0x80) ≤ 0xDFFF) from
    ⟨h7, h8⟩)]
  simp

/-- decodePctSeq undoes the escape of a well-formed four-byte UTF-8
sequence. -/
theorem decodePctSeq_four {b b1 b2 b3 : Nat} (h1 : 0xF0 ≤ b) (h2 : b < 0xF8)
    (h3 : 0x80 ≤ b1) (h4 : b1 < 0xC0) (h5 : 0x80 ≤ b2) (h6 : b2 < 0xC0)
    (h7 : 0x80 ≤ b3) (h8 : b3 < 0xC0)
    (h9 : 0x10000 ≤ (b - 0xF0) * 0x40000 + (b1 - 0x80) * 0x1000 +
      (b2 - 0x80) * 0x40 + (b3 - 0x80))
    (h10 : (b - 0xF0) * 0x40000 + (b1 - 0x80) * 0x1000 +
      (b2 - 0x80) * 0x40 + (b3 - 0x80) ≤ 0x10FFFF)
    (rest : List Char) :
    decodePctSeq (pctEncodeByte b ++ (pctEncodeByte b1 ++
        (pctEncodeByte b2 ++ (pctEncodeByte b3 ++ rest)))) =
      some ((b - 0xF0) * 0x40000 + (b1 - 0x80) * 0x1000 +
        (b2 - 0x80) * 0x40 + (b3 - 0x80), rest) := by
  simp only [pctEncodeByte, List.cons_append, List.nil_append]
  unfold decodePctSeq
  try dsimp only
  simp only [reduceIte]
  rw [hex2_pct (show b < 256 by omega)]
  try dsimp only
  rw [if_neg (show ¬ b < 0x80 by omega), if_neg (show ¬ b < 0xC0 by omega),
    if_neg (show ¬ b < 0xE0 by omega), if_neg (show ¬ b < 0xF0 by omega),
    if_pos (show b < 0xF8 from h2)]
  rw [hex2_pct (show b1 < 256 by omega), hex2_pct (show b2 < 256 by omega),
    hex2_pct (show b3 < 256 by omega)]
  try dsimp only
  rw [if_pos (show (0x80 ≤ b1 ∧ b1 < 0xC0) ∧ (0x80 ≤ b2 ∧ b2 < 0xC0) ∧
    (0x80 ≤ b3 ∧ b3 < 0xC0) from ⟨⟨h3, h4⟩, ⟨h5, h6⟩, h7, h8⟩)]
  try dsimp only
  rw [if_pos (show 0x10000 ≤ (b - 0xF0) * 0x40000 + (b1 - 0x80) * 0x1000 +
    (b2 - 0x80) * 0x40 + (b3 - 0x80) ∧
    (b - 0xF0) * 0x40000 + (b1 - 0x80) * 0x1000 + (b2 - 0x80) * 0x40 +
      (b3 - 0x80) ≤ 0x10FFFF from ⟨h9, h10⟩)]
  simp

/-- A non-percent character passes through one decode step. -/
theorem decodeURIGo_plain {c : Char} (hne : c ≠ '%') (fuel : Nat)
    (rest : List Char) :
    decodeURIGo (fuel + 1) (c :: rest) =
      (c :: ·) <$> decodeURIGo fuel rest := by
  simp only [decodeURIGo]
  rw [if_neg hne]

/-- One decode step on a percent-escape consumes the whole escape. -/
theorem decodeURIGo_pctHead {fuel : Nat} {b n : Nat} {l rest2 : List Char}
    (h : decodePctSeq (pctEncodeByte b ++ l) = some (n, rest2)) :
    decodeURIGo (fuel + 1) (pctEncodeByte b ++ l) =
      (Char.ofNat n :: ·) <$> decodeURIGo fuel rest2 := by
  simp only [pctEncodeByte, List.cons_append, List.nil_append] at h ⊢
  simp only [decodeURIGo]
  rw [if_pos trivial, h]

/-- The fuelled decoder inverts encodeURIComponent whenever the fuel covers
the encoded length. -/
theorem decode_encode_go (s : List Char) :
    ∀ fuel, (encodeURIComponentList s).length ≤ fuel →
      decodeURIGo fuel (encodeURIComponentList s) = some s := by
  induction s with
  | nil =>
    intro fuel h
    cases fuel <;> rfl
  | cons c tl ih =>
    intro fuel hlen
    have henc : encodeURIComponentList (c :: tl) =
        (if uriUnreserved c then [c]
          else (utf8EncodeNat c.toNat).flatMap pctEncodeByte) ++
          encodeURIComponentList tl := by
      unfold encodeURIComponentList
      rw [List.flatMap_cons]
    rw [henc] at hlen ⊢
    by_cases hu : uriUnreserved c
    · rw [if_pos hu, List.singleton_append] at hlen ⊢
      have hne : c ≠ '%' := by
        intro hcp
        rw [hcp] at hu
        exact absurd hu (by decide)
      rcases fuel with _ | f
      · exact absurd hlen (by simp)
      rw [decodeURIGo_plain hne]
      rw [ih f (by simp at hlen; omega)]
      rfl
    · rw [if_neg hu] at hlen ⊢
      have hv := char_toNat_lt c
      have hsg := char_not_surrogate c
      by_cases h1 : c.toNat < 0x80
      · have hb : utf8EncodeNat c.toNat = [c.toNat] := by
          unfold utf8EncodeNat
          rw [if_pos h1]
        rw [hb] at hlen ⊢
        rw [show [c.toNat].flatMap pctEncodeByte ++ encodeURIComponentList tl
            = pctEncodeByte c.toNat ++ encodeURIComponentList tl from by
          simp] at hlen ⊢
        rcases fuel with _ | f
        · exact absurd hlen (by simp [pctEncodeByte])
        rw [decodeURIGo_pctHead (decodePctSeq_one h1 _)]
        rw [ih f (by simp [pctEncodeByte] at hlen; omega)]
        simp [Char.ofNat_toNat]
      · by_cases h2 : c.toNat < 0x800
        · have hb : utf8EncodeNat c.toNat =
              [0xC0 + c.toNat / 0x40, 0x80 + c.toNat % 0x40] := by
            unfold utf8EncodeNat
            rw [if_neg h1, if_pos h2]
          rw [hb] at hlen ⊢
          rw [show [0xC0 + c.toNat / 0x40,
              0x80 + c.toNat % 0x40].flatMap pctEncodeByte ++
              encodeURIComponentList tl =
              pctEncodeByte (0xC0 + c.toNat / 0x40) ++
              (pctEncodeByte (0x80 + c.toNat % 0x40) ++
                encodeURIComponentList tl) from by
            simp [List.append_assoc]] at hlen ⊢
          rcases fuel with _ | f
          · exact absurd hlen (by simp [pctEncodeByte])
          have hdec := @decodePctSeq_two (0xC0 + c.toNat / 0x40)
            (0x80 + c.toNat % 0x40) (by omega) (by omega) (by omega)
            (by omega) (by omega) (encodeURIComponentList tl)
          rw [show (0xC0 + c.toNat / 0x40 - 0xC0) * 0x40 +
              (0x80 + c.toNat % 0x40 - 0x80) = c.toNat from by omega] at hdec
          rw [decodeURIGo_pctHead hdec]
          rw [ih f (by simp [pctEncodeByte] at hlen; omega)]
          simp [Char.ofNat_toNat]
        · by_cases h3 : c.toNat < 0x10000
          · have hb : utf8EncodeNat c.toNat =
                [0xE0 + c.toNat / 0x1000, 0x80 + c.toNat / 0x40 % 0x40,
                  0x80 + c.toNat % 0x40] := by
              unfold utf8EncodeNat
              rw [if_neg h1, if_neg h2, if_pos h3]
            rw [hb] at hlen ⊢
            rw [show [0xE0 + c.toNat / 0x1000, 0x80 + c.toNat / 0x40 % 0x40,
                0x80 + c.toNat % 0x40].flatMap pctEncodeByte ++
                encodeURIComponentList tl =
                pctEncodeByte (0xE0 + c.toNat / 0x1000) ++
                (pctEncodeByte (0x80 + c.toNat / 0x40 % 0x40) ++
                  (pctEncodeByte (0x80 + c.toNat % 0x40) ++
                    encodeURIComponentList tl)) from by
              simp [List.append_assoc]] at hlen ⊢
            rcases fuel with _ | f
            · exact absurd hlen (by simp [pctEncodeByte])
            have hdec := @decodePctSeq_three (0xE0 + c.toNat / 0x1000)
              (0x80 + c.toNat / 0x40 % 0x40)
              (0x80 + c.toNat % 0x40) (by omega) (by omega) (by omega)
              (by omega) (by omega) (by omega) (by omega) (by omega)
              (encodeURIComponentList tl)
            rw [show (0xE0 + c.toNat / 0x1000 - 0xE0) * 0x1000 +
                (0x80 + c.toNat / 0x40 % 0x40 - 0x80) * 0x40 +
                (0x80 + c.toNat % 0x40 - 0x80) = c.toNat from by
              omega] at hdec
            rw [decodeURIGo_pctHead hdec]
            rw [ih f (by simp [pctEncodeByte] at hlen; omega)]
            simp [Char.ofNat_toNat]
          · have hb : utf8EncodeNat c.toNat =
                [0xF0 + c.toNat / 0x40000, 0x80 + c.toNat / 0x1000 % 0x40,
                  0x80 + c.toNat / 0x40 % 0x40, 0x80 + c.toNat % 0x40] := by
              unfold utf8EncodeNat
              rw [if_neg h1, if_neg h2, if_neg h3]
            rw [hb] at hlen ⊢
            rw [show [0xF0 + c.toNat / 0x40000,
                0x80 + c.toNat / 0x1000 % 0x40, 0x80 + c.toNat / 0x40 % 0x40,
                0x80 + c.toNat % 0x40].flatMap pctEncodeByte ++
                encodeURIComponentList tl =
                pctEncodeByte (0xF0 + c.toNat / 0x40000) ++
                (pctEncodeByte (0x80 + c.toNat / 0x1000 % 0x40) ++
                  (pctEncodeByte (0x80 + c.toNat / 0x40 % 0x40) ++
                    (pctEncodeByte (0x80 + c.toNat % 0x40) ++
                      encodeURIComponentList tl))) from by
              simp [List.append_assoc]] at hlen ⊢
            rcases fuel with _ | f
            · exact absurd hlen (by simp [pctEncodeByte])
            have hdec := @decodePctSeq_four (0xF0 + c.toNat / 0x40000)
              (0x80 + c.toNat / 0x1000 % 0x40)
              (0x80 + c.toNat / 0x40 % 0x40)
              (0x80 + c.toNat % 0x40) (by omega) (by omega) (by omega)
              (by omega) (by omega) (by omega) (by omega) (by omega)
              (by omega) (by omega) (encodeURIComponentList tl)
            rw [show (0xF0 + c.toNat / 0x40000 - 0xF0) * 0x40000 +
                (0x80 + c.toNat / 0x1000 % 0x40 - 0x80) * 0x1000 +
                (0x80 + c.toNat / 0x40 % 0x40 - 0x80) * 0x40 +
                (0x80 + c.toNat % 0x40 - 0x80) = c.toNat from by
              omega] at hdec
            rw [decodeURIGo_pctHead hdec]
            rw [ih f (by simp [pctEncodeByte] at hlen; omega)]
            simp [Char.ofNat_toNat]

/-- decodeURIComponent inverts encodeURIComponent on every scalar-value
string. -/
theorem decode_encode (s : List Char) :
    decodeURIComponentList (encodeURIComponentList s) = some s := by
  unfold decodeURIComponentList
  exact decode_encode_go s _ (Nat.le_refl _)

/-- C4: decoding the encoding round-trips exactly: for every string
(including the empty string, Unicode text and special characters),
base64ToStr (strToBase64 s) succeeds and returns s. -/
theorem base64_roundTrip :
    ∀ s : List Char, (strToBase64 s).bind base64ToStr = some s := by
  intro s
  have hall : (encodeURIComponentList s).all (fun c => c.toNat < 256) =
      true :=
    List.all_eq_true.mpr fun x hx =>
      decide_eq_true (encodeURIComponent_ascii s x hx)
  have hbytes : ∀ b ∈ (encodeURIComponentList s).map Char.toNat, b < 256 := by
    intro b hb
    simp only [List.mem_map] at hb
    obtain ⟨x, hx, rfl⟩ := hb
    exact encodeURIComponent_ascii s x hx
  have hmap : ((encodeURIComponentList s).map Char.toNat).map Char.ofNat =
      encodeURIComponentList s := by
    simp [List.map_map, Function.comp_def, Char.ofNat_toNat]
  unfold strToBase64 btoa
  rw [if_pos hall]
  show base64ToStr (btoaBytes ((encodeURIComponentList s).map Char.toNat)) =
    some s
  unfold base64ToStr atob
  rw [atob_btoaBytes _ hbytes]
  show decodeURIComponentList
    (((encodeURIComponentList s).map Char.toNat).map Char.ofNat) = some s
  rw [hmap]
  exact decode_encode s
